import Mathlib

/-!
Verification development for the wallfacer task-execution and reconciliation
engine.  The Go source is shallowly embedded: pure string manipulation is
translated to Lean functions over `String`/`List Char`; subprocess calls
(`git`, `cp`, the agent container) are abstracted as oracle parameters whose
results drive the embedded control flow; the filesystem and per-repository
git metadata are an explicit state record threaded through the operations.

Source files embedded here:
  internal/gitutil/ops.go      (IsConflictOutput, RebaseOntoDefault)
  internal/gitutil/repo.go     (DefaultBranch)
  internal/runner/worktree.go  (setupWorktrees, cleanupWorktrees)
  internal/runner/board.go     (canMountWorktree, generateBoardContext)
  internal/runner/snapshot.go  (setupNonGitSnapshot)
  internal/runner/runner.go    (Runner.repoLock, maxRebaseRetries)

The commit pipeline body (`Runner.commit`, internal/runner/commit.go) and the
gitutil worktree helpers (CreateWorktree / RemoveWorktree) are not among the
provided sources; where they are needed they are modelled from the spec, and
each such definition carries a doc comment saying so.
-/

/-! ## Go string primitives -/

/-- Go `strings.Contains`: substring search, modelled as checking whether the
pattern is a prefix of some suffix of the string (byte search, here over the
character list). -/
def containsSub (pat : List Char) : List Char → Bool
  | [] => pat.isPrefixOf []
  | c :: t => pat.isPrefixOf (c :: t) || containsSub pat t

/-- Go `strings.Contains s sub`. -/
def goContains (s sub : String) : Bool :=
  containsSub sub.toList s.toList

/-- Characters trimmed by Go `strings.TrimSpace` (the ASCII part of
`unicode.IsSpace`; git subprocess output is ASCII). -/
def isGoSpace (c : Char) : Bool :=
  c = ' ' || c = '\t' || c = '\n' || c = '\r' || c = '\x0b' || c = '\x0c'

/-- Go `strings.TrimSpace`. -/
def goTrimSpace (s : String) : String :=
  String.mk (((s.toList.dropWhile isGoSpace).reverse.dropWhile isGoSpace).reverse)

/-- Go `strings.TrimPrefix s pre`: drops `pre` when it is a prefix, otherwise
returns `s` unchanged. -/
def trimPfx (s pre : String) : String :=
  if pre.toList.isPrefixOf s.toList then String.mk (s.toList.drop pre.toList.length) else s

/-- Go `path/filepath.Base` for slash-separated paths: empty path gives ".",
an all-separator path gives "/", otherwise the last path element after
stripping trailing separators. -/
def filepathBase (p : String) : String :=
  if p = "" then "."
  else
    let cs := p.toList.reverse.dropWhile (fun c => c = '/')
    if cs = [] then "/"
    else String.mk ((cs.takeWhile (fun c => c ≠ '/')).reverse)

/-- Go `filepath.Join` of two elements (the embedded paths never need the
cleaning behaviour of Join). -/
def joinPath (a b : String) : String := a ++ "/" ++ b

/-- Hexadecimal digit test (the characters appearing in a UUID string). -/
def isHexChar (c : Char) : Bool :=
  c.isDigit || ('a' ≤ c && c ≤ 'f') || ('A' ≤ c && c ≤ 'F')

theorem containsSub_iff (pat l : List Char) :
    containsSub pat l = true ↔ pat <:+: l := by
  induction l with
  | nil =>
      simp [containsSub, List.isPrefixOf_iff_prefix]
  | cons c t ih =>
      simp [containsSub, List.isPrefixOf_iff_prefix, ih, List.infix_cons_iff]

/-! ## internal/gitutil/ops.go : conflict detection -/

/-- `gitutil.IsConflictOutput` (ops.go): reports whether git output text
indicates a merge conflict. -/
def IsConflictOutput (s : String) : Bool :=
  goContains s "CONFLICT" || goContains s "Merge conflict" || goContains s "conflict"

/-! ## internal/gitutil/ops.go : RebaseOntoDefault -/

/-- Observable subprocess actions issued while integrating a task branch.
`rebase` is the `git rebase <defBranch>` invocation, `abort` is
`git rebase --abort`, `resolve` is the agent re-invocation (existing session)
that resolves a conflict. -/
inductive GitAction where
  | rebase : GitAction
  | abort : GitAction
  | resolve : GitAction
deriving DecidableEq, Repr

/-- Result of one `git rebase` subprocess invocation: exit status and the
combined stdout+stderr text. -/
structure CmdResult where
  ok : Bool
  output : String
deriving DecidableEq, Repr

/-- Error classification produced by `RebaseOntoDefault`:
`ErrConflict` wrapped with the worktree path, or a hard failure. -/
inductive RebaseErr where
  | conflict (worktreePath : String) : RebaseErr
  | other (msg : String) : RebaseErr
deriving DecidableEq, Repr

/-- `gitutil.RebaseOntoDefault` (ops.go), abstracted over the outcome of the
`git rebase` subprocess.  On success only the rebase command ran.  On any
failure the code runs `git rebase --abort` so the repository is not stuck
mid-rebase, then returns `ErrConflict` when the output matches conflict
markers (`IsConflictOutput`) and a hard error otherwise.  (The call to
`DefaultBranch` that chooses the rebase target is modelled separately and does
not affect this control flow.) -/
def RebaseOntoDefault (res : CmdResult) (worktreePath : String) :
    List GitAction × Option RebaseErr :=
  if res.ok then ([GitAction.rebase], none)
  else
    ([GitAction.rebase, GitAction.abort],
      some (if IsConflictOutput res.output
            then RebaseErr.conflict worktreePath
            else RebaseErr.other res.output))

/-- C10 helper: a sample of the three behaviours, kept as a sanity lemma. -/
theorem isConflictOutput_lower :
    IsConflictOutput "error: could not apply abc123... fix conflict later" = true := by
  decide

/-! ## Commit pipeline Phase 2 (conflict retry loop) -/

/-- `maxRebaseRetries` (internal/runner/runner.go): retry bound for
agent-assisted rebase conflict resolution. -/
def maxRebaseRetries : Nat := 3

/-- Modelled from the spec: the body of the commit pipeline
(`Runner.commit`, internal/runner/commit.go) is not among the provided source
files; its Phase 2 integration loop is modelled from spec section 4.5: on rebase
conflict, abort (done inside `RebaseOntoDefault`), invoke the agent on the
existing session to resolve, retry the rebase; resolution is attempted up to
`maxRebaseRetries` (3) times and exhausting the retries moves the task to
`failed`.  `rebaseResults n` is the outcome of the n-th `git rebase`
subprocess invocation; the returned list is the subprocess trace and the
returned string the resulting task status ("done" abstracts the successful
continuation into fast-forward merge). -/
def phase2Go (rebaseResults : Nat → CmdResult) (wt : String) :
    Nat → Nat → List GitAction → List GitAction × String
  | 0, _, trace => (trace, "failed")
  | fuel + 1, attempt, trace =>
    match RebaseOntoDefault (rebaseResults attempt) wt with
    | (acts, none) => (trace ++ acts, "done")
    | (acts, some (RebaseErr.conflict _)) =>
        phase2Go rebaseResults wt fuel (attempt + 1) (trace ++ acts ++ [GitAction.resolve])
    | (acts, some (RebaseErr.other _)) => (trace ++ acts, "failed")

/-- Modelled from the spec: Phase 2 entry point — run the rebase/resolve loop
with the retry budget `maxRebaseRetries`. -/
def integratePhase2 (rebaseResults : Nat → CmdResult) (wt : String) :
    List GitAction × String :=
  phase2Go rebaseResults wt maxRebaseRetries 0 []

/-- C1: if every rebase attempt reports a conflict, the commit pipeline
attempts agent-assisted resolution exactly 3 times in total, each failed
rebase is immediately followed by `git rebase --abort` (the repository is
never left mid-rebase), and the task ends in status `failed`.  The trace
equality exhibits the exact subprocess sequence. -/
theorem commit_conflict_retries_exactly_three (rebaseResults : Nat → CmdResult)
    (wt : String)
    (h : ∀ n, (rebaseResults n).ok = false ∧ IsConflictOutput (rebaseResults n).output = true) :
    integratePhase2 rebaseResults wt =
      ([GitAction.rebase, GitAction.abort, GitAction.resolve,
        GitAction.rebase, GitAction.abort, GitAction.resolve,
        GitAction.rebase, GitAction.abort, GitAction.resolve], "failed")
    ∧ (integratePhase2 rebaseResults wt).1.count GitAction.resolve = maxRebaseRetries
    ∧ (integratePhase2 rebaseResults wt).2 = "failed" := by
  have heq : integratePhase2 rebaseResults wt =
      ([GitAction.rebase, GitAction.abort, GitAction.resolve,
        GitAction.rebase, GitAction.abort, GitAction.resolve,
        GitAction.rebase, GitAction.abort, GitAction.resolve], "failed") := by
    simp only [integratePhase2, maxRebaseRetries, phase2Go, RebaseOntoDefault,
      (h 0).1, (h 0).2, (h 1).1, (h 1).2, (h 2).1, (h 2).2,
      Bool.false_eq_true, if_false, if_true, ite_true, ite_false]
    rfl
  refine ⟨heq, ?_, ?_⟩
  · rw [heq]; decide
  · rw [heq]

/-- Rebase oracle whose every invocation fails with conflict-marker output. -/
def alwaysConflict : Nat → CmdResult :=
  fun _ => { ok := false, output := "CONFLICT (content): Merge conflict in a.txt" }

/-- C1 witness: concrete always-conflicting oracle, hypotheses discharged. -/
theorem commit_conflict_retries_exactly_three_witness :
    (alwaysConflict 0).ok = false
    ∧ IsConflictOutput (alwaysConflict 0).output = true
    ∧ integratePhase2 alwaysConflict "/wt/repo" =
      ([GitAction.rebase, GitAction.abort, GitAction.resolve,
        GitAction.rebase, GitAction.abort, GitAction.resolve,
        GitAction.rebase, GitAction.abort, GitAction.resolve], "failed") :=
  ⟨rfl, by decide,
    (commit_conflict_retries_exactly_three alwaysConflict "/wt/repo"
      (fun _ => ⟨rfl,
        show IsConflictOutput "CONFLICT (content): Merge conflict in a.txt" = true by
          decide⟩)).1⟩

/-- C10: `IsConflictOutput s` is true exactly when `s` contains one of the
substrings "CONFLICT", "Merge conflict" or "conflict"; consequently a failed
rebase whose combined output merely mentions the lowercase word "conflict"
anywhere is classified by `RebaseOntoDefault` as a recoverable conflict
(`ErrConflict`), not a hard failure. -/
theorem isConflictOutput_spec (s : String) (res : CmdResult) (wt : String) :
    (IsConflictOutput s = true ↔
      ("CONFLICT".toList <:+: s.toList ∨ "Merge conflict".toList <:+: s.toList ∨
        "conflict".toList <:+: s.toList))
    ∧ (res.ok = false → "conflict".toList <:+: res.output.toList →
        (RebaseOntoDefault res wt).2 = some (RebaseErr.conflict wt)) := by
  constructor
  · simp [IsConflictOutput, goContains, containsSub_iff, or_assoc]
  · intro hok hc
    have h3 : goContains res.output "conflict" = true := by
      unfold goContains
      exact (containsSub_iff _ _).mpr hc
    have hconf : IsConflictOutput res.output = true := by
      simp [IsConflictOutput, h3]
    simp [RebaseOntoDefault, hok, hconf]

/-- C10 witness: a failed rebase whose output mentions "conflict" only inside
an unrelated error message is still classified as a conflict. -/
theorem isConflictOutput_spec_witness :
    ("error: network conflict detected".toList <:+:
        (CmdResult.mk false "error: network conflict detected").output.toList → True)
    ∧ (CmdResult.mk false "error: network conflict detected").ok = false
    ∧ (RebaseOntoDefault (CmdResult.mk false "error: network conflict detected") "/wt/r").2 =
        some (RebaseErr.conflict "/wt/r") :=
  ⟨fun _ => trivial, rfl,
    (isConflictOutput_spec "x" (CmdResult.mk false "error: network conflict detected") "/wt/r").2
      rfl (by decide)⟩

/-! ## internal/gitutil/repo.go : DefaultBranch -/

/-- Outcomes of the two git queries `DefaultBranch` performs:
`showCurrent` is `git branch --show-current` (`none` = nonzero exit,
`some out` = raw stdout), `originHead` is
`git symbolic-ref --short refs/remotes/origin/HEAD`. -/
structure GitRepoEnv where
  showCurrent : Option String
  originHead : Option String
deriving DecidableEq, Repr

/-- Second half of `gitutil.DefaultBranch` (repo.go): detached-HEAD fallback
to `origin/HEAD`, stripping the "origin/" prefix, then the literal "main". -/
def defaultBranchOrigin (env : GitRepoEnv) : String :=
  match env.originHead with
  | some out =>
      let branch := goTrimSpace (trimPfx out "origin/")
      if branch ≠ "" ∧ branch ≠ out then branch else "main"
  | none => "main"

/-- `gitutil.DefaultBranch` (repo.go): prefer the currently checked-out
branch, fall back to `origin/HEAD`, then the literal "main".  The Go function
returns `(string, error)` but never a non-nil error, so it is embedded as a
total function into `String`. -/
def DefaultBranch (env : GitRepoEnv) : String :=
  match env.showCurrent with
  | some out =>
      let branch := goTrimSpace out
      if branch ≠ "" then branch else defaultBranchOrigin env
  | none => defaultBranchOrigin env

/-- C5: default-branch resolution order — (1) the currently checked-out
branch name when nonempty; (2) otherwise the branch `origin/HEAD` points to
with the "origin/" prefix stripped; (3) otherwise the literal fallback
"main", without error (the function is total). -/
theorem defaultBranch_resolution_order (env : GitRepoEnv) (out b : String) :
    (env.showCurrent = some out → goTrimSpace out ≠ "" →
      DefaultBranch env = goTrimSpace out)
    ∧ ((env.showCurrent = none ∨ (env.showCurrent = some out ∧ goTrimSpace out = "")) →
        env.originHead = some ("origin/" ++ b) → goTrimSpace b = b → b ≠ "" →
        DefaultBranch env = b)
    ∧ ((env.showCurrent = none ∨ (env.showCurrent = some out ∧ goTrimSpace out = "")) →
        env.originHead = none → DefaultBranch env = "main") := by
  have hstrip : ∀ s : String, trimPfx ("origin/" ++ s) "origin/" = s := by
    intro s
    have hpre : "origin/".toList.isPrefixOf ("origin/" ++ s).toList = true := by
      have : ("origin/" ++ s).toList = "origin/".toList ++ s.toList := rfl
      rw [this, List.isPrefixOf_iff_prefix]
      exact List.prefix_append _ _
    simp only [trimPfx, hpre, if_true]
    have : ("origin/" ++ s).toList = "origin/".toList ++ s.toList := rfl
    rw [this, List.drop_left]
    cases s
    rfl
  have hne : ∀ s : String, s ≠ "" → s ≠ "origin/" ++ s := by
    intro s _ habs
    have hlen : s.toList.length = ("origin/" ++ s).toList.length := by rw [← habs]
    have : ("origin/" ++ s).toList = "origin/".toList ++ s.toList := rfl
    rw [this, List.length_append] at hlen
    simp at hlen
  refine ⟨?_, ?_, ?_⟩
  · intro hsc hne1
    simp [DefaultBranch, hsc, hne1]
  · intro hempty hoh htrim hb
    have horig : defaultBranchOrigin env = b := by
      simp only [defaultBranchOrigin, hoh, hstrip, htrim]
      rw [if_pos ⟨hb, hne b hb⟩]
    rcases hempty with h | ⟨h1, h2⟩
    · simp [DefaultBranch, h, horig]
    · simp [DefaultBranch, h1, h2, horig]
  · intro hempty hoh
    have horig : defaultBranchOrigin env = "main" := by
      simp [defaultBranchOrigin, hoh]
    rcases hempty with h | ⟨h1, h2⟩
    · simp [DefaultBranch, h, horig]
    · simp [DefaultBranch, h1, h2, horig]

/-- C5 witness: the three resolution stages at concrete query outcomes. -/
theorem defaultBranch_resolution_order_witness :
    DefaultBranch ⟨some " dev \n", some "origin/main\n"⟩ = "dev"
    ∧ DefaultBranch ⟨some "\n", some ("origin/" ++ "release")⟩ = "release"
    ∧ DefaultBranch ⟨none, none⟩ = "main" := by
  refine ⟨?_, ?_, ?_⟩
  · have h := (defaultBranch_resolution_order ⟨some " dev \n", some "origin/main\n"⟩
      " dev \n" "").1 rfl (by decide)
    rw [h]; decide
  · exact (defaultBranch_resolution_order ⟨some "\n", some ("origin/" ++ "release")⟩
      "\n" "release").2.1 (Or.inr ⟨rfl, by decide⟩) rfl (by decide) (by decide)
  · exact (defaultBranch_resolution_order ⟨none, none⟩ "" "").2.2 (Or.inl rfl) rfl

/-! ## internal/runner/board.go : canMountWorktree -/

/-- `canMountWorktree` (board.go): whether a sibling task worktree set is
eligible for read-only mounting, decided by status.  The Go `switch` on the
status string becomes the equivalent if-chain; `worktreePaths` is the
repo-path → worktree-path map as an association list, and `statIsDir wt`
abstracts `os.Stat(wt)` succeeding with a directory. -/
def canMountWorktree (status : String) (worktreePaths : List (String × String))
    (statIsDir : String → Bool) : Bool :=
  if status = "waiting" ∨ status = "failed" then true
  else if status = "done" then worktreePaths.any (fun pr => statIsDir pr.2)
  else false

/-- C6: `CanMount` is true for `waiting` and `failed` regardless of paths,
true for `done` exactly when at least one recorded worktree path exists as a
directory, and false for every other status. -/
theorem canMountWorktree_spec (paths : List (String × String)) (statIsDir : String → Bool) :
    canMountWorktree "waiting" paths statIsDir = true
    ∧ canMountWorktree "failed" paths statIsDir = true
    ∧ (canMountWorktree "done" paths statIsDir = true ↔
        ∃ pr ∈ paths, statIsDir pr.2 = true)
    ∧ canMountWorktree "backlog" paths statIsDir = false
    ∧ canMountWorktree "in_progress" paths statIsDir = false
    ∧ canMountWorktree "committing" paths statIsDir = false
    ∧ canMountWorktree "cancelled" paths statIsDir = false
    ∧ canMountWorktree "archived" paths statIsDir = false := by
  refine ⟨?_, ?_, ?_, ?_, ?_, ?_, ?_, ?_⟩
  · rw [canMountWorktree, if_pos (Or.inl rfl)]
  · rw [canMountWorktree, if_pos (Or.inr rfl)]
  · rw [canMountWorktree, if_neg (by decide), if_pos rfl]
    simp [List.any_eq_true]
  all_goals rw [canMountWorktree, if_neg (by decide), if_neg (by decide)]

/-! ## internal/runner/worktree.go : setupWorktrees / cleanupWorktrees

World state: `dirs` is the set of existing directories (paths); `regs` is the
per-repository git worktree metadata — one `(repoPath, worktreePath, branch)`
registration per `git worktree add`; `snaps` records snapshot directories that
carry a local tracking repository.  Subprocess behaviour is abstracted by two
oracles: `isGit ws` is `gitutil.IsGitRepo(ws)` and `cf ws` ("creation fails")
makes the fallible creation steps for workspace `ws` (MkdirAll /
CreateWorktree / setupNonGitSnapshot) fail. -/

structure RunnerCfg where
  workspaces : List String
  worktreesDir : String
deriving DecidableEq, Repr

structure World where
  dirs : List String
  regs : List (String × String × String)
  snaps : List String
deriving DecidableEq, Repr

/-- `os.MkdirAll`: create the directory if absent (no-op when it exists). -/
def insertNew (p : String) (l : List String) : List String :=
  if p ∈ l then l else l ++ [p]

/-- Whether `p` is the path `base` or lies underneath it (what
`os.RemoveAll(base)` deletes). -/
def isUnderB (base p : String) : Bool :=
  p == base || (base ++ "/").toList.isPrefixOf p.toList

/-- `os.RemoveAll(base)` on a set of recorded paths. -/
def removeAllUnder (base : String) (l : List String) : List String :=
  l.filter (fun p => !isUnderB base p)

/-- Branch name computed at the top of `setupWorktrees` (worktree.go line 22):
`"task/" + taskID.String()[:8]`. -/
def branchNameOf (taskID : String) : String :=
  "task/" ++ String.mk (taskID.toList.take 8)

/-- Per-workspace worktree path (worktree.go lines 26-27):
`filepath.Join(r.worktreesDir, taskID.String(), filepath.Base(ws))`. -/
def wtOf (cfg : RunnerCfg) (taskID ws : String) : String :=
  joinPath (joinPath cfg.worktreesDir taskID) (filepathBase ws)

/-- `Runner.cleanupWorktrees` (worktree.go lines 63-79): for every recorded
git-backed worktree run `gitutil.RemoveWorktree` — modelled from the spec
(the gitutil worktree file is not among the provided sources) as removing the
worktree registration and deleting the task branch — then remove the whole
per-task directory with `os.RemoveAll`.  Every step is best-effort. -/
def cleanupWorktrees (isGit : String → Bool) (cfg : RunnerCfg) (taskID : String)
    (worktreePaths : List (String × String)) (branch : String) (w : World) : World :=
  let regs := w.regs.filter (fun rg =>
    !(isGit rg.1 && worktreePaths.any (fun pr => pr.1 == rg.1 && pr.2 == rg.2.1) &&
      rg.2.2 == branch))
  let td := joinPath cfg.worktreesDir taskID
  { dirs := removeAllUnder td w.dirs
    regs := regs
    snaps := removeAllUnder td w.snaps }

/-- Loop body of `Runner.setupWorktrees` (worktree.go lines 25-53): for each
configured workspace compute the deterministic worktree path; reuse it when
it already exists; otherwise create the parent directory and either a git
worktree on the task branch (`gitutil.CreateWorktree`, modelled from the spec
as: create the worktree directory and register it together with the new
branch) or a non-git snapshot.  On any failure, tear down the worktrees
accumulated so far and return the error. -/
def setupLoop (isGit cf : String → Bool) (cfg : RunnerCfg) (taskID branch : String) :
    List String → List (String × String) → World →
      World × Except String (List (String × String))
  | [], acc, w => (w, Except.ok acc)
  | ws :: rest, acc, w =>
    let wt := wtOf cfg taskID ws
    if wt ∈ w.dirs then
      setupLoop isGit cf cfg taskID branch rest (acc ++ [(ws, wt)]) w
    else if cf ws then
      (cleanupWorktrees isGit cfg taskID acc branch w, Except.error ws)
    else
      let w1 : World := { w with dirs := insertNew (joinPath cfg.worktreesDir taskID) w.dirs }
      if isGit ws then
        setupLoop isGit cf cfg taskID branch rest (acc ++ [(ws, wt)])
          { w1 with dirs := w1.dirs ++ [wt], regs := w1.regs ++ [(ws, wt, branch)] }
      else
        setupLoop isGit cf cfg taskID branch rest (acc ++ [(ws, wt)])
          { w1 with dirs := w1.dirs ++ [wt], snaps := w1.snaps ++ [wt] }

/-- `Runner.setupWorktrees` (worktree.go lines 21-56): compute the branch
name, then walk the configured workspaces.  Returns the worktree-path map and
branch name, or the first error (after cleanup). -/
def setupWorktrees (isGit cf : String → Bool) (cfg : RunnerCfg) (taskID : String)
    (w : World) : World × Except String (List (String × String) × String) :=
  match setupLoop isGit cf cfg taskID (branchNameOf taskID) cfg.workspaces [] w with
  | (w2, Except.ok acc) => (w2, Except.ok (acc, branchNameOf taskID))
  | (w2, Except.error e) => (w2, Except.error e)

theorem insertNew_mem_of_mem (p q : String) (l : List String) (h : p ∈ l) :
    p ∈ insertNew q l := by
  unfold insertNew
  split
  · exact h
  · exact List.mem_append_left _ h

theorem setupLoop_ok_acc (isGit cf : String → Bool) (cfg : RunnerCfg) (taskID branch : String) :
    ∀ (wss : List String) (acc : List (String × String)) (w w2 : World)
      (acc2 : List (String × String)),
      setupLoop isGit cf cfg taskID branch wss acc w = (w2, Except.ok acc2) →
      acc2 = acc ++ wss.map (fun ws => (ws, wtOf cfg taskID ws)) := by
  intro wss
  induction wss with
  | nil =>
      intro acc w w2 acc2 h
      simp only [setupLoop, Prod.mk.injEq, Except.ok.injEq] at h
      simp [← h.2]
  | cons ws rest ih =>
      intro acc w w2 acc2 h
      simp only [setupLoop] at h
      split_ifs at h with h1 h2 h3
      · have := ih _ _ _ _ h
        simp [this]
      · simp only [Prod.mk.injEq] at h
        exact absurd h.2 (by simp)
      · have := ih _ _ _ _ h
        simp [this]
      · have := ih _ _ _ _ h
        simp [this]

theorem setupLoop_ok_dirs_mono (isGit cf : String → Bool) (cfg : RunnerCfg)
    (taskID branch : String) :
    ∀ (wss : List String) (acc : List (String × String)) (w w2 : World)
      (acc2 : List (String × String)),
      setupLoop isGit cf cfg taskID branch wss acc w = (w2, Except.ok acc2) →
      ∀ p, p ∈ w.dirs → p ∈ w2.dirs := by
  intro wss
  induction wss with
  | nil =>
      intro acc w w2 acc2 h p hp
      simp only [setupLoop, Prod.mk.injEq, Except.ok.injEq] at h
      rw [← h.1]
      exact hp
  | cons ws rest ih =>
      intro acc w w2 acc2 h p hp
      simp only [setupLoop] at h
      split_ifs at h with h1 h2 h3
      · exact ih _ _ _ _ h p hp
      · simp only [Prod.mk.injEq] at h
        exact absurd h.2 (by simp)
      · exact ih _ _ _ _ h p
          (List.mem_append_left _ (insertNew_mem_of_mem _ _ _ hp))
      · exact ih _ _ _ _ h p
          (List.mem_append_left _ (insertNew_mem_of_mem _ _ _ hp))

theorem setupLoop_ok_wt_mem (isGit cf : String → Bool) (cfg : RunnerCfg)
    (taskID branch : String) :
    ∀ (wss : List String) (acc : List (String × String)) (w w2 : World)
      (acc2 : List (String × String)),
      setupLoop isGit cf cfg taskID branch wss acc w = (w2, Except.ok acc2) →
      ∀ ws ∈ wss, wtOf cfg taskID ws ∈ w2.dirs := by
  intro wss
  induction wss with
  | nil =>
      intro acc w w2 acc2 h ws hws
      exact absurd hws (List.not_mem_nil _)
  | cons ws0 rest ih =>
      intro acc w w2 acc2 h ws hws
      simp only [setupLoop] at h
      rcases List.mem_cons.mp hws with heq | htail
      · subst heq
        split_ifs at h with h1 h2 h3
        · exact setupLoop_ok_dirs_mono isGit cf cfg taskID branch _ _ _ _ _ h _ h1
        · simp only [Prod.mk.injEq] at h
          exact absurd h.2 (by simp)
        · exact setupLoop_ok_dirs_mono isGit cf cfg taskID branch _ _ _ _ _ h _
            (List.mem_append_right _ (List.mem_singleton_self _))
        · exact setupLoop_ok_dirs_mono isGit cf cfg taskID branch _ _ _ _ _ h _
            (List.mem_append_right _ (List.mem_singleton_self _))
      · split_ifs at h with h1 h2 h3
        · exact ih _ _ _ _ h ws htail
        · simp only [Prod.mk.injEq] at h
          exact absurd h.2 (by simp)
        · exact ih _ _ _ _ h ws htail
        · exact ih _ _ _ _ h ws htail

theorem setupLoop_all_exists (isGit cf : String → Bool) (cfg : RunnerCfg)
    (taskID branch : String) :
    ∀ (wss : List String) (acc : List (String × String)) (w : World),
      (∀ ws ∈ wss, wtOf cfg taskID ws ∈ w.dirs) →
      setupLoop isGit cf cfg taskID branch wss acc w =
        (w, Except.ok (acc ++ wss.map (fun ws => (ws, wtOf cfg taskID ws)))) := by
  intro wss
  induction wss with
  | nil =>
      intro acc w _
      simp [setupLoop]
  | cons ws rest ih =>
      intro acc w hall
      have hmem : wtOf cfg taskID ws ∈ w.dirs := hall ws (List.mem_cons_self _ _)
      simp only [setupLoop, if_pos hmem]
      rw [ih (acc ++ [(ws, wtOf cfg taskID ws)]) w
        (fun x hx => hall x (List.mem_cons_of_mem _ hx))]
      simp

/-- C2: calling `setupWorktrees` again after a successful call is a no-op —
every computed worktree path already exists, so each repository takes the
reuse branch, and the same worktree-path map and the same branch name are
returned with the world unchanged. -/
theorem setupWorktrees_idempotent (isGit cf : String → Bool) (cfg : RunnerCfg)
    (taskID : String) (w w2 : World) (acc : List (String × String)) (branch : String)
    (h : setupWorktrees isGit cf cfg taskID w = (w2, Except.ok (acc, branch))) :
    setupWorktrees isGit cf cfg taskID w2 = (w2, Except.ok (acc, branch)) := by
  unfold setupWorktrees at h ⊢
  rcases hloop : setupLoop isGit cf cfg taskID (branchNameOf taskID) cfg.workspaces [] w with
    ⟨w2', res⟩
  rw [hloop] at h
  cases res with
  | error e =>
      simp only [Prod.mk.injEq] at h
      exact absurd h.2 (by simp)
  | ok acc' =>
      simp only [Prod.mk.injEq, Except.ok.injEq] at h
      obtain ⟨hw, hacc, hbr⟩ := h
      subst hw hacc hbr
      have hall : ∀ ws ∈ cfg.workspaces, wtOf cfg taskID ws ∈ w2'.dirs :=
        setupLoop_ok_wt_mem isGit cf cfg taskID _ _ _ _ _ _ hloop
      have hacc2 : acc' = [] ++ cfg.workspaces.map (fun ws => (ws, wtOf cfg taskID ws)) :=
        setupLoop_ok_acc isGit cf cfg taskID _ _ _ _ _ _ hloop
      rw [setupLoop_all_exists isGit cf cfg taskID (branchNameOf taskID) cfg.workspaces []
        w2' hall, ← hacc2]

/-- C2 witness: one git workspace, fresh world; the theorem applied to the
concrete first call yields the second, identical call. -/
theorem setupWorktrees_idempotent_witness :
    setupWorktrees (fun _ => true) (fun _ => false) ⟨["/repo"], "/wtd"⟩
        "abcd1234-0000" ⟨[], [], []⟩ =
      (⟨["/wtd/abcd1234-0000", "/wtd/abcd1234-0000/repo"],
        [("/repo", "/wtd/abcd1234-0000/repo", "task/abcd1234")], []⟩,
        Except.ok ([("/repo", "/wtd/abcd1234-0000/repo")], "task/abcd1234"))
    ∧ setupWorktrees (fun _ => true) (fun _ => false) ⟨["/repo"], "/wtd"⟩
        "abcd1234-0000"
        ⟨["/wtd/abcd1234-0000", "/wtd/abcd1234-0000/repo"],
          [("/repo", "/wtd/abcd1234-0000/repo", "task/abcd1234")], []⟩ =
      (⟨["/wtd/abcd1234-0000", "/wtd/abcd1234-0000/repo"],
        [("/repo", "/wtd/abcd1234-0000/repo", "task/abcd1234")], []⟩,
        Except.ok ([("/repo", "/wtd/abcd1234-0000/repo")], "task/abcd1234")) := by
  constructor
  · rfl
  · exact setupWorktrees_idempotent (fun _ => true) (fun _ => false) ⟨["/repo"], "/wtd"⟩
      "abcd1234-0000" ⟨[], [], []⟩ _ _ _ (by rfl)

/-- C3: the branch name produced by a successful `setupWorktrees` call is
exactly `"task/"` followed by the first 8 characters of the task id (which
are hexadecimal digits for a UUID-formatted id); it is derived from the id
and from nothing else — the theorem holds for every oracle, configuration and
starting world. -/
theorem setupWorktrees_branch_derived (isGit cf : String → Bool) (cfg : RunnerCfg)
    (taskID : String) (w w2 : World) (acc : List (String × String)) (branch : String)
    (h : setupWorktrees isGit cf cfg taskID w = (w2, Except.ok (acc, branch)))
    (hhex : ∀ c ∈ taskID.toList.take 8, isHexChar c = true) :
    branch = "task/" ++ String.mk (taskID.toList.take 8)
    ∧ (∀ c ∈ branch.toList.drop 5, isHexChar c = true) := by
  have hbr : branch = branchNameOf taskID := by
    unfold setupWorktrees at h
    rcases hloop : setupLoop isGit cf cfg taskID (branchNameOf taskID) cfg.workspaces [] w with
      ⟨w2', res⟩
    rw [hloop] at h
    cases res with
    | error e =>
        simp only [Prod.mk.injEq] at h
        exact absurd h.2 (by simp)
    | ok acc' =>
        simp only [Prod.mk.injEq, Except.ok.injEq] at h
        exact h.2.2.symm
  refine ⟨hbr, ?_⟩
  intro c hc
  rw [hbr] at hc
  have hsplit : (branchNameOf taskID).toList =
      "task/".toList ++ taskID.toList.take 8 := rfl
  rw [hsplit] at hc
  have hlen : ("task/".toList).length = 5 := rfl
  rw [← hlen, List.drop_left] at hc
  exact hhex c hc

/-- C3 witness: empty workspace list gives a successful call; the id has a
hexadecimal 8-character head. -/
theorem setupWorktrees_branch_derived_witness :
    setupWorktrees (fun _ => true) (fun _ => false) ⟨[], "/wtd"⟩
        "0f3c9b2a-7777" ⟨[], [], []⟩ =
      (⟨[], [], []⟩, Except.ok ([], "task/0f3c9b2a"))
    ∧ (∀ c ∈ ("0f3c9b2a-7777" : String).toList.take 8, isHexChar c = true)
    ∧ "task/0f3c9b2a" = "task/" ++ String.mk (("0f3c9b2a-7777" : String).toList.take 8) :=
  ⟨rfl, by decide,
    ((setupWorktrees_branch_derived (fun _ => true) (fun _ => false) ⟨[], "/wtd"⟩
      "0f3c9b2a-7777" ⟨[], [], []⟩ ⟨[], [], []⟩ [] "task/0f3c9b2a" rfl (by decide)).1)⟩

theorem mem_removeAllUnder (base p : String) (l : List String)
    (h : p ∈ removeAllUnder base l) : isUnderB base p = false := by
  unfold removeAllUnder at h
  have := (List.mem_filter.mp h).2
  simpa using this

theorem cleanup_dirs_not_under (isGit : String → Bool) (cfg : RunnerCfg) (taskID : String)
    (paths : List (String × String)) (branch : String) (w : World) :
    (∀ p ∈ (cleanupWorktrees isGit cfg taskID paths branch w).dirs,
      isUnderB (joinPath cfg.worktreesDir taskID) p = false)
    ∧ (∀ p ∈ (cleanupWorktrees isGit cfg taskID paths branch w).snaps,
      isUnderB (joinPath cfg.worktreesDir taskID) p = false) :=
  ⟨fun _ hp => mem_removeAllUnder _ _ _ hp, fun _ hp => mem_removeAllUnder _ _ _ hp⟩

theorem setupLoop_error_is_cleanup (isGit cf : String → Bool) (cfg : RunnerCfg)
    (taskID branch : String) :
    ∀ (wss : List String) (acc : List (String × String)) (w w2 : World) (e : String),
      setupLoop isGit cf cfg taskID branch wss acc w = (w2, Except.error e) →
      ∃ acc1 w1, w2 = cleanupWorktrees isGit cfg taskID acc1 branch w1 := by
  intro wss
  induction wss with
  | nil =>
      intro acc w w2 e h
      simp only [setupLoop, Prod.mk.injEq] at h
      exact absurd h.2 (by simp)
  | cons ws rest ih =>
      intro acc w w2 e h
      simp only [setupLoop] at h
      split_ifs at h with h1 h2 h3
      · exact ih _ _ _ _ h
      · simp only [Prod.mk.injEq] at h
        exact ⟨acc, w, h.1.symm⟩
      · exact ih _ _ _ _ h
      · exact ih _ _ _ _ h

theorem setupLoop_error_regs (isGit cf : String → Bool) (cfg : RunnerCfg)
    (taskID branch : String) (w0 : World) :
    ∀ (wss : List String) (acc : List (String × String)) (w w2 : World) (e : String),
      setupLoop isGit cf cfg taskID branch wss acc w = (w2, Except.error e) →
      (∀ rg ∈ w.regs, rg ∈ w0.regs ∨
        (isGit rg.1 = true ∧ (∃ pr ∈ acc, pr.1 = rg.1 ∧ pr.2 = rg.2.1) ∧ rg.2.2 = branch)) →
      ∀ rg ∈ w2.regs, rg ∈ w0.regs := by
  intro wss
  induction wss with
  | nil =>
      intro acc w w2 e h _
      simp only [setupLoop, Prod.mk.injEq] at h
      exact absurd h.2 (by simp)
  | cons ws rest ih =>
      intro acc w w2 e h hinv
      simp only [setupLoop] at h
      split_ifs at h with h1 h2 h3
      · refine ih _ _ _ _ h (fun rg hrg => ?_)
        rcases hinv rg hrg with hl | ⟨hg, ⟨pr, hpr, he1, he2⟩, hb⟩
        · exact Or.inl hl
        · exact Or.inr ⟨hg, ⟨pr, List.mem_append_left _ hpr, he1, he2⟩, hb⟩
      · simp only [Prod.mk.injEq] at h
        rw [← h.1]
        intro rg hrg
        unfold cleanupWorktrees at hrg
        simp only at hrg
        have hmem := (List.mem_filter.mp hrg).1
        have hpred := (List.mem_filter.mp hrg).2
        rcases hinv rg hmem with hl | ⟨hg, ⟨pr, hpr, he1, he2⟩, hb⟩
        · exact hl
        · exfalso
          have hany : acc.any (fun pr => pr.1 == rg.1 && pr.2 == rg.2.1) = true := by
            rw [List.any_eq_true]
            exact ⟨pr, hpr, by simp [he1, he2]⟩
          rw [hg, hany, hb] at hpred
          simp at hpred
      · refine ih _ _ _ _ h (fun rg hrg => ?_)
        simp only at hrg
        rcases List.mem_append.mp hrg with hl | hr
        · rcases hinv rg hl with hL | ⟨hg, ⟨pr, hpr, he1, he2⟩, hb⟩
          · exact Or.inl hL
          · exact Or.inr ⟨hg, ⟨pr, List.mem_append_left _ hpr, he1, he2⟩, hb⟩
        · have : rg = (ws, wtOf cfg taskID ws, branch) := List.mem_singleton.mp hr
          subst this
          exact Or.inr ⟨h3, ⟨(ws, wtOf cfg taskID ws),
            List.mem_append_right _ (List.mem_singleton_self _), rfl, rfl⟩, rfl⟩
      · refine ih _ _ _ _ h (fun rg hrg => ?_)
        simp only at hrg
        rcases hinv rg hrg with hl | ⟨hg, ⟨pr, hpr, he1, he2⟩, hb⟩
        · exact Or.inl hl
        · exact Or.inr ⟨hg, ⟨pr, List.mem_append_left _ hpr, he1, he2⟩, hb⟩

/-- C4: when `setupWorktrees` fails for some configured repository after
creating worktrees for earlier repositories, the error is returned only after
cleanup: no directory under the per-task worktree directory survives (the
created worktree directories and the per-task directory itself are removed),
no snapshot under it survives, and every git worktree registration created by
this call has been removed (the surviving registrations are a subset of the
initial ones). -/
theorem setupWorktrees_failure_cleanup (isGit cf : String → Bool) (cfg : RunnerCfg)
    (taskID : String) (w w2 : World) (e : String)
    (h : setupWorktrees isGit cf cfg taskID w = (w2, Except.error e)) :
    (∀ p ∈ w2.dirs, isUnderB (joinPath cfg.worktreesDir taskID) p = false)
    ∧ (∀ p ∈ w2.snaps, isUnderB (joinPath cfg.worktreesDir taskID) p = false)
    ∧ (∀ rg ∈ w2.regs, rg ∈ w.regs) := by
  unfold setupWorktrees at h
  rcases hloop : setupLoop isGit cf cfg taskID (branchNameOf taskID) cfg.workspaces [] w with
    ⟨w2', res⟩
  rw [hloop] at h
  cases res with
  | ok acc' =>
      simp only [Prod.mk.injEq] at h
      exact absurd h.2 (by simp)
  | error e' =>
      simp only [Prod.mk.injEq, Except.error.injEq] at h
      obtain ⟨hw, _⟩ := h
      subst hw
      obtain ⟨acc1, w1, hclean⟩ :=
        setupLoop_error_is_cleanup isGit cf cfg taskID (branchNameOf taskID) _ _ _ _ _ hloop
      refine ⟨?_, ?_, ?_⟩
      · rw [hclean]
        exact (cleanup_dirs_not_under isGit cfg taskID acc1 (branchNameOf taskID) w1).1
      · rw [hclean]
        exact (cleanup_dirs_not_under isGit cfg taskID acc1 (branchNameOf taskID) w1).2
      · exact setupLoop_error_regs isGit cf cfg taskID (branchNameOf taskID) w _ _ _ _ _
          hloop (fun rg hrg => Or.inl hrg)

/-- C4 witness: two workspaces, the second fails; the first workspace had a
worktree created and registered, and after the failure only the unrelated
pre-existing directory survives while the per-task directory and the created
registration are gone. -/
theorem setupWorktrees_failure_cleanup_witness :
    setupWorktrees (fun _ => true) (fun ws => ws == "/b") ⟨["/a", "/b"], "/wtd"⟩
        "abcd1234-9999" ⟨["/other"], [], []⟩ =
      (⟨["/other"], [], []⟩, Except.error "/b")
    ∧ (∀ p ∈ (⟨["/other"], [], []⟩ : World).dirs,
        isUnderB (joinPath "/wtd" "abcd1234-9999") p = false)
    ∧ (∀ rg ∈ (⟨["/other"], [], []⟩ : World).regs,
        rg ∈ (⟨["/other"], [], []⟩ : World).regs) :=
  ⟨rfl,
    (setupWorktrees_failure_cleanup (fun _ => true) (fun ws => ws == "/b")
      ⟨["/a", "/b"], "/wtd"⟩ "abcd1234-9999" ⟨["/other"], [], []⟩
      ⟨["/other"], [], []⟩ "/b" rfl).1,
    (setupWorktrees_failure_cleanup (fun _ => true) (fun ws => ws == "/b")
      ⟨["/a", "/b"], "/wtd"⟩ "abcd1234-9999" ⟨["/other"], [], []⟩
      ⟨["/other"], [], []⟩ "/b" rfl).2.2⟩

/-! ## internal/runner/snapshot.go : setupNonGitSnapshot -/

/-- Outcomes of the fallible subprocess steps of `setupNonGitSnapshot`, whose
errors propagate (`os.MkdirAll`, `cp -a`, `git init`); the later
config/add/commit invocations ignore their errors in the source
(`.Run()` with the result discarded). -/
structure SnapshotEnv where
  mkdirOk : Bool
  cpOk : Bool
  initOk : Bool
deriving DecidableEq, Repr

/-- Resulting snapshot directory: copied files (relative path → content,
hidden and nested paths are plain strings in the list), whether a tracking
repository was initialised and configured, and the commit messages in its
history. -/
structure SnapWorld where
  files : List (String × String)
  repoInit : Bool
  userConfigured : Bool
  commits : List String
deriving DecidableEq, Repr

/-- `git commit` in the tracking repository: without `--allow-empty` an empty
staging area produces no commit; with it a commit is always created. -/
def gitCommitSnap (allowEmpty : Bool) (staged : List (String × String)) (msg : String)
    (hist : List String) : List String :=
  if staged.isEmpty && !allowEmpty then hist else hist ++ [msg]

/-- `setupNonGitSnapshot` (snapshot.go lines 16-37): make the target
directory, copy the whole workspace into it (`cp -a ws/. target` — the
trailing "/." makes hidden files and nested subdirectories copy too, so the
model copies the full file list), initialise a tracking repository, configure
its user, stage everything (`git add -A`) and create the baseline commit with
`--allow-empty` so that an empty workspace still yields a baseline commit.
Failures of the first three steps remove the target and propagate. -/
def setupNonGitSnapshot (env : SnapshotEnv) (wsFiles : List (String × String)) :
    Except String SnapWorld :=
  if !env.mkdirOk then Except.error "mkdir"
  else if !env.cpOk then Except.error "cp workspace to snapshot"
  else if !env.initOk then Except.error "git init snapshot"
  else
    Except.ok
      { files := wsFiles
        repoInit := true
        userConfigured := true
        commits := gitCommitSnap true wsFiles "wallfacer: initial snapshot" [] }

/-- C8: whenever the underlying tools work, `CreateSnapshot` succeeds for
every workspace — the empty one included — and the produced directory holds
every source file plus an initialised tracking repository whose history is
exactly the baseline commit; the final conjunct shows that without the
`--allow-empty` allowance an empty workspace would yield no baseline commit,
i.e. the allowance is what covers the zero-file case. -/
theorem createSnapshot_baseline (env : SnapshotEnv)
    (hm : env.mkdirOk = true) (hc : env.cpOk = true) (hi : env.initOk = true) :
    (∀ wsFiles : List (String × String),
      setupNonGitSnapshot env wsFiles =
        Except.ok
          { files := wsFiles, repoInit := true, userConfigured := true,
            commits := ["wallfacer: initial snapshot"] })
    ∧ setupNonGitSnapshot env [] =
        Except.ok
          { files := [], repoInit := true, userConfigured := true,
            commits := ["wallfacer: initial snapshot"] }
    ∧ gitCommitSnap false [] "wallfacer: initial snapshot" [] = [] := by
  have hall : ∀ wsFiles : List (String × String),
      setupNonGitSnapshot env wsFiles =
        Except.ok
          { files := wsFiles, repoInit := true, userConfigured := true,
            commits := ["wallfacer: initial snapshot"] } := by
    intro wsFiles
    simp only [setupNonGitSnapshot, hm, hc, hi]
    simp [gitCommitSnap]
  exact ⟨hall, hall [], rfl⟩

/-- C8 witness: all tools available; the nested and hidden files of a sample
workspace land in the snapshot, and the empty workspace also commits. -/
theorem createSnapshot_baseline_witness :
    (⟨true, true, true⟩ : SnapshotEnv).mkdirOk = true
    ∧ setupNonGitSnapshot ⟨true, true, true⟩
        [("README.md", "# Test"), (".hidden", "h"), ("subdir/nested.txt", "n")] =
      Except.ok
        { files := [("README.md", "# Test"), (".hidden", "h"), ("subdir/nested.txt", "n")],
          repoInit := true, userConfigured := true,
          commits := ["wallfacer: initial snapshot"] }
    ∧ setupNonGitSnapshot ⟨true, true, true⟩ [] =
      Except.ok
        { files := [], repoInit := true, userConfigured := true,
          commits := ["wallfacer: initial snapshot"] } :=
  ⟨rfl,
    (createSnapshot_baseline ⟨true, true, true⟩ rfl rfl rfl).1
      [("README.md", "# Test"), (".hidden", "h"), ("subdir/nested.txt", "n")],
    (createSnapshot_baseline ⟨true, true, true⟩ rfl rfl rfl).2.1⟩

/-! ## internal/runner/runner.go : repoLock -/

/-- Registry behind `Runner.repoMu` (a `sync.Map` of path → `*sync.Mutex`):
the association list stores one mutex per repository path; mutex identity is
modelled by a `Nat` handle and `nextID` provides fresh handles, so two
distinct handles are two distinct `*sync.Mutex` values. -/
structure LockRegistry where
  locks : List (String × Nat)
  nextID : Nat
deriving DecidableEq, Repr

/-- `Runner.repoLock` (runner.go lines 281-284): `LoadOrStore` — return the
existing mutex for the path, or lazily create, store and return a new one. -/
def repoLock (st : LockRegistry) (repoPath : String) : Nat × LockRegistry :=
  match st.locks.lookup repoPath with
  | some l => (l, st)
  | none => (st.nextID, ⟨st.locks ++ [(repoPath, st.nextID)], st.nextID + 1⟩)

/-- Registry wellformedness: every stored handle is below the freshness
counter and no handle is stored twice.  Holds for the empty registry and is
preserved by `repoLock`. -/
def lockWF (st : LockRegistry) : Prop :=
  (∀ pr ∈ st.locks, pr.2 < st.nextID) ∧ (st.locks.map Prod.snd).Nodup

theorem lookup_append (l1 l2 : List (String × Nat)) (k : String) :
    (l1 ++ l2).lookup k =
      match l1.lookup k with
      | some v => some v
      | none => l2.lookup k := by
  induction l1 with
  | nil => simp [List.lookup]
  | cons pr t ih =>
      rcases pr with ⟨a, b⟩
      by_cases hk : k == a
      · simp [List.lookup, hk]
      · simp only [List.cons_append, List.lookup, hk]
        exact ih

theorem lookup_mem (l : List (String × Nat)) (k : String) (v : Nat)
    (h : l.lookup k = some v) : (k, v) ∈ l := by
  induction l with
  | nil => simp [List.lookup] at h
  | cons pr t ih =>
      rcases pr with ⟨a, b⟩
      by_cases hk : k == a
      · simp only [List.lookup, hk] at h
        have hka : k = a := by simpa using hk
        have hbv : b = v := by simpa using h
        subst hka hbv
        exact List.mem_cons_self _ _
      · simp only [List.lookup, hk] at h
        exact List.mem_cons_of_mem _ (ih h)

theorem lockWF_distinct (st : LockRegistry) (h : lockWF st) (p q : String)
    (a b : Nat) (hp : (p, a) ∈ st.locks) (hq : (q, b) ∈ st.locks) (hne : p ≠ q) :
    a ≠ b := by
  intro hab
  subst hab
  have hinj := List.inj_on_of_nodup_map h.2
  have := hinj hp hq rfl
  exact hne (congrArg Prod.fst this)

/-- C9: the per-repository lock registry — (1) a second request for the same
path returns the same mutex and leaves the registry unchanged; (2) the mutex
is created lazily on first use and stored under the path; (3) requests for
two different paths return distinct mutexes. -/
theorem repoLock_registry (st : LockRegistry) (p q : String) (h : lockWF st) :
    ((repoLock (repoLock st p).2 p).1 = (repoLock st p).1
      ∧ (repoLock (repoLock st p).2 p).2 = (repoLock st p).2)
    ∧ (st.locks.lookup p = none →
        (repoLock st p).2.locks = st.locks ++ [(p, st.nextID)])
    ∧ (p ≠ q → (repoLock st p).1 ≠ (repoLock (repoLock st p).2 q).1) := by
  rcases hp : st.locks.lookup p with _ | a
  · -- first use of p: lazily created
    have hfirst : repoLock st p = (st.nextID, ⟨st.locks ++ [(p, st.nextID)], st.nextID + 1⟩) := by
      simp [repoLock, hp]
    have hlook2 : (st.locks ++ [(p, st.nextID)]).lookup p = some st.nextID := by
      rw [lookup_append, hp]
      simp [List.lookup]
    refine ⟨?_, ?_, ?_⟩
    · rw [hfirst]
      simp [repoLock, hlook2]
    · intro _
      rw [hfirst]
    · intro hne
      rw [hfirst]
      simp only
      rcases hq : st.locks.lookup q with _ | b
      · have hqp : (q == p) = false := by
          simp only [beq_eq_false_iff_ne]
          exact Ne.symm hne
        have : (st.locks ++ [(p, st.nextID)]).lookup q = none := by
          rw [lookup_append, hq]
          simp [List.lookup, hqp]
        simp [repoLock, this]
      · have : (st.locks ++ [(p, st.nextID)]).lookup q = some b := by
          rw [lookup_append, hq]
        simp only [repoLock, this]
        have hmem := lookup_mem _ _ _ hq
        have := h.1 _ hmem
        simp only at this
        omega
  · -- p already present
    have hfirst : repoLock st p = (a, st) := by
      simp [repoLock, hp]
    refine ⟨?_, ?_, ?_⟩
    · rw [hfirst]
      simp [repoLock, hp]
    · exact fun hcontra => absurd hcontra (by simp)
    · intro hne
      rw [hfirst]
      simp only
      have hpmem := lookup_mem _ _ _ hp
      rcases hq : st.locks.lookup q with _ | b
      · simp only [repoLock, hq]
        have := h.1 _ hpmem
        simp only at this
        omega
      · simp only [repoLock, hq]
        have hqmem := lookup_mem _ _ _ hq
        exact lockWF_distinct st h p q a b hpmem hqmem hne

/-- C9 witness: empty registry, two distinct repository paths. -/
theorem repoLock_registry_witness :
    lockWF ⟨[], 0⟩
    ∧ ((repoLock (repoLock ⟨[], 0⟩ "/repoA").2 "/repoA").1 = (repoLock ⟨[], 0⟩ "/repoA").1
        ∧ (repoLock (repoLock ⟨[], 0⟩ "/repoA").2 "/repoA").2 = (repoLock ⟨[], 0⟩ "/repoA").2)
    ∧ (( ⟨[], 0⟩ : LockRegistry).locks.lookup "/repoA" = none →
        (repoLock ⟨[], 0⟩ "/repoA").2.locks = [] ++ [("/repoA", 0)])
    ∧ ("/repoA" ≠ "/repoB" →
        (repoLock ⟨[], 0⟩ "/repoA").1 ≠
          (repoLock (repoLock ⟨[], 0⟩ "/repoA").2 "/repoB").1) := by
  have h := repoLock_registry ⟨[], 0⟩ "/repoA" "/repoB" (by constructor <;> simp)
  exact ⟨⟨by simp, by simp⟩, h.1, h.2.1, h.2.2⟩

/-! ## internal/runner/board.go : generateBoardContext

The store data model (`store.Task`, `store.TaskUsage`) is consumed here; its
type is not among the provided sources, so the record below is modelled from
the spec (section 3) restricted to the fields board.go reads.  Time values are
carried as their serialized strings. -/

/-- Modelled from the spec: accumulated usage counters (tokens and cost). -/
structure TaskUsage where
  inputTokens : Nat
  outputTokens : Nat
  totalCostCents : Nat
deriving DecidableEq, Repr

/-- Modelled from the spec: the task record, restricted to the fields read by
`generateBoardContext` (spec section 3 data model; `sessionID` is the
session identifier that must never reach the manifest). -/
structure StoreTask where
  id : String
  title : String
  prompt : String
  status : String
  sessionID : String
  turns : Nat
  result : Option String
  stopReason : Option String
  usage : TaskUsage
  branchName : String
  worktreePaths : List (String × String)
  createdAt : String
  updatedAt : String
deriving DecidableEq, Repr

/-- `BoardTask` (board.go lines 24-39): the sanitized per-task view exposed in
board.json — id, short id, title, prompt, status, self-flag, turn count,
result, stop-reason, usage, branch name, mount path, timestamps.  SessionID
is deliberately absent. -/
structure BoardTask where
  id : String
  shortID : String
  title : String
  prompt : String
  status : String
  isSelf : Bool
  turns : Nat
  result : Option String
  stopReason : Option String
  usage : TaskUsage
  branchName : String
  worktreeMount : Option String
  createdAt : String
  updatedAt : String
deriving DecidableEq, Repr

/-- JSON string-character escaping used by the serializer. -/
def escChar (c : Char) : List Char :=
  if c = '"' then ['\\', '"']
  else if c = '\\' then ['\\', '\\']
  else if c = '\n' then ['\\', 'n']
  else if c = '\t' then ['\\', 't']
  else if c = '\r' then ['\\', 'r']
  else [c]

/-- JSON string literal. -/
def jsonStr (s : String) : String :=
  "\"" ++ String.mk (s.toList.flatMap escChar) ++ "\""

/-- JSON value for a nullable string (Go `*string`). -/
def jsonOptStr : Option String → String
  | none => "null"
  | some s => jsonStr s

/-- Serialization of the usage record. -/
def marshalUsage (u : TaskUsage) : String :=
  "\x7b\"input_tokens\":" ++ toString u.inputTokens ++
  ",\"output_tokens\":" ++ toString u.outputTokens ++
  ",\"total_cost_cents\":" ++ toString u.totalCostCents ++ "\x7d"

/-- Serialization of one `BoardTask`, fields in struct-tag order;
`title` and `branch_name` carry `omitempty`.  (The indentation that
`json.MarshalIndent` inserts is immaterial and omitted.) -/
def marshalBoardTask (bt : BoardTask) : String :=
  "\x7b\"id\":" ++ jsonStr bt.id ++
  ",\"short_id\":" ++ jsonStr bt.shortID ++
  (if bt.title = "" then "" else ",\"title\":" ++ jsonStr bt.title) ++
  ",\"prompt\":" ++ jsonStr bt.prompt ++
  ",\"status\":" ++ jsonStr bt.status ++
  ",\"is_self\":" ++ (if bt.isSelf then "true" else "false") ++
  ",\"turns\":" ++ toString bt.turns ++
  ",\"result\":" ++ jsonOptStr bt.result ++
  ",\"stop_reason\":" ++ jsonOptStr bt.stopReason ++
  ",\"usage\":" ++ marshalUsage bt.usage ++
  (if bt.branchName = "" then "" else ",\"branch_name\":" ++ jsonStr bt.branchName) ++
  ",\"worktree_mount\":" ++ jsonOptStr bt.worktreeMount ++
  ",\"created_at\":" ++ jsonStr bt.createdAt ++
  ",\"updated_at\":" ++ jsonStr bt.updatedAt ++ "\x7d"

/-- Serialization of the whole manifest (`BoardManifest`, board.go lines
16-20): generated_at, self_task_id, and the task list — an empty task set
yields the present-but-empty list `[]`. -/
def marshalManifest (generatedAt selfTaskID : String) (tasks : List BoardTask) : String :=
  "\x7b\"generated_at\":" ++ jsonStr generatedAt ++
  ",\"self_task_id\":" ++ jsonStr selfTaskID ++
  ",\"tasks\":[" ++ String.intercalate "," (tasks.map marshalBoardTask) ++ "]\x7d"

/-- Per-task body of the `generateBoardContext` loop (board.go lines 71-102):
mark `is_self`, compute the 8-character short id, compute the mount path for
eligible non-self siblings (first workspace of the map), and copy every other
field — but never `SessionID`. -/
def boardTaskOfTask (statIsDir : String → Bool) (mountWorktrees : Bool)
    (selfTaskID : String) (t : StoreTask) : BoardTask :=
  let isSelf := t.id == selfTaskID
  let shortID := String.mk (t.id.toList.take 8)
  let worktreeMount :=
    if mountWorktrees && !isSelf && canMountWorktree t.status t.worktreePaths statIsDir &&
        !t.worktreePaths.isEmpty then
      match t.worktreePaths with
      | [] => none
      | (repoPath, _) :: _ =>
          some ("/workspace/.tasks/worktrees/" ++ shortID ++ "/" ++ filepathBase repoPath)
    else none
  { id := t.id
    shortID := shortID
    title := t.title
    prompt := t.prompt
    status := t.status
    isSelf := isSelf
    turns := t.turns
    result := t.result
    stopReason := t.stopReason
    usage := t.usage
    branchName := t.branchName
    worktreeMount := worktreeMount
    createdAt := t.createdAt
    updatedAt := t.updatedAt }

/-- `generateBoardContext` (board.go lines 64-112): serialize the non-archived
task listing into board.json bytes.  `now` abstracts `time.Now()`. -/
def generateBoardContext (statIsDir : String → Bool) (tasks : List StoreTask)
    (selfTaskID : String) (mountWorktrees : Bool) (now : String) : String :=
  marshalManifest now selfTaskID
    (tasks.map (boardTaskOfTask statIsDir mountWorktrees selfTaskID))

/-- C7: the manifest bytes are independent of every task session identifier —
replacing any (or every) task session identifier by anything whatsoever
leaves the produced bytes unchanged, because the serialized per-task record
(`BoardTask`) carries id, short id, title, prompt, status, self-flag, turns,
result, stop-reason, usage, branch name, mount path and timestamps, and no
session identifier.  In particular no choice of session identifiers can make
the bytes depend on (or leak) them. -/
theorem generateBoardContext_session_noninterference (statIsDir : String → Bool)
    (tasks : List StoreTask) (selfTaskID : String) (mountWorktrees : Bool) (now : String)
    (f : StoreTask → String) :
    generateBoardContext statIsDir
        (tasks.map (fun t => { t with sessionID := f t })) selfTaskID mountWorktrees now
      = generateBoardContext statIsDir tasks selfTaskID mountWorktrees now := by
  unfold generateBoardContext
  rw [List.map_map]
  have : (boardTaskOfTask statIsDir mountWorktrees selfTaskID ∘
      fun t => { t with sessionID := f t }) =
      boardTaskOfTask statIsDir mountWorktrees selfTaskID :=
    funext fun t => rfl
  rw [this]
